import Mathlib

/-!
Verification of the KeyHandler input-binding registry of the
firefox-youtube-speed extension: a shallow embedding of the
keyboard/mouse shortcut handler (normalization, binding registry,
dispatch), with theorems settling the specification claims.

Events are modelled as records carrying the fields the handler reads:
the event type, the four modifier flags, the `key` string of keyboard
events, the `button` index of mouse events and the vertical wheel
delta (only its sign is ever consulted, so an integer models it).
Callbacks are pure functions from events to a JavaScript return value;
the observable behaviour of a dispatch is a trace of actions
(callback invocations, preventDefault, stopPropagation) in the order
the handler performs them.
-/

namespace KeyHandler

/-- The event types the handler listens for. -/
inductive EventType where
  | keydown
  | keyup
  | wheel
  | mousedown
deriving DecidableEq, Repr

/-- A DOM-style input event, restricted to the fields the handler reads. -/
structure Event where
  type : EventType
  shiftKey : Bool
  ctrlKey : Bool
  altKey : Bool
  metaKey : Bool
  key : String
  button : Nat
  deltaY : Int

/-- The JavaScript values a callback may return; dispatch only ever
tests strict equality with `false`, so a few representatives suffice. -/
inductive RetVal where
  | rFalse
  | rTrue
  | rUndefined
  | rNull
deriving DecidableEq, Repr

/-- A callback: a pure function from the raw event to its return value. -/
def CB : Type := Event → RetVal

/-- One entry of the registry, mirroring the object pushed by `bind`:
`{ id, keys, combo, callback }`. -/
structure Binding where
  id : Nat
  keys : List String
  combo : String
  callback : CB

/-- The cached modifier flags (`modifierState` in the source). -/
structure ModifierState where
  shift : Bool
  ctrl : Bool
  alt : Bool
  meta : Bool
deriving DecidableEq, Repr

/-- JavaScript `String.prototype.toLowerCase`, modelled characterwise on
the ASCII range (all strings the handler compares against are ASCII). -/
def toLowerCase (s : String) : String :=
  ⟨s.data.map Char.toLower⟩

/-- JavaScript `Array.prototype.join` with separator `"+"`. -/
def joinPlus : List String → String
  | [] => ""
  | [s] => s
  | s :: rest => s ++ "+" ++ joinPlus rest

/-- JavaScript `String.prototype.split` with separator `"+"`, on the
underlying character list. -/
def jsSplitPlus : List Char → List (List Char)
  | [] => [[]]
  | c :: rest =>
    if c = '+' then [] :: jsSplitPlus rest
    else
      match jsSplitPlus rest with
      | [] => [[c]]
      | t :: ts => (c :: t) :: ts

/-- JavaScript `String.prototype.trim`: drop whitespace from both
ends. -/
def jsTrim (s : String) : String :=
  ⟨((s.data.dropWhile Char.isWhitespace).reverse.dropWhile
      Char.isWhitespace).reverse⟩

/-- `parseCombo`: lowercase, split on `"+"`, trim each token; the empty
(falsy) string yields the empty list. -/
def parseCombo (combo : String) : List String :=
  if combo = "" then []
  else ((jsSplitPlus (toLowerCase combo).data).map (fun cs => jsTrim ⟨cs⟩))

/-- `normalizeKey`: canonicalize modifier aliases and shifted
punctuation, otherwise lowercase. -/
def normalizeKey (key : String) : String :=
  if key = "control" then "ctrl"
  else if key = "command" then "cmd"
  else if key = "meta" then "cmd"
  else if key = "option" then "alt"
  else if key = ">" then "."
  else if key = "<" then ","
  else if key = " " then "space"
  else toLowerCase key

/-- The modifier tokens contributed by the event flags, in the fixed
order shift, ctrl, alt, cmd. -/
def modifierKeys (e : Event) : List String :=
  (if e.shiftKey then ["shift"] else []) ++
  (if e.ctrlKey then ["ctrl"] else []) ++
  (if e.altKey then ["alt"] else []) ++
  (if e.metaKey then ["cmd"] else [])

/-- `getComboFromEvent`: build the canonical combo string for an event. -/
def getComboFromEvent (e : Event) : String :=
  let keys := modifierKeys e
  if e.type = EventType.wheel then
    joinPlus (keys ++ [if e.deltaY < 0 then "wheel_up" else "wheel_down"])
  else if e.type = EventType.mousedown then
    if e.button = 1 then joinPlus (keys ++ ["middle_click"])
    else joinPlus (keys ++ ["mouse" ++ toString (e.button + 1)])
  else
    let key := toLowerCase e.key
    if key = "shift" ∨ key = "control" ∨ key = "alt" ∨ key = "meta" then ""
    else joinPlus (keys ++ [normalizeKey key])

/-- `bind`: reject a falsy combo or a non-callable callback with the
sentinel `-1`; otherwise append a new binding. The id the source draws
from `Date.now()` plus a random suffix is passed in explicitly. -/
def bind (bindings : List Binding) (combo : String) (callback : Option CB)
    (freshId : Nat) : List Binding × Int :=
  match callback with
  | none => (bindings, -1)
  | some cb =>
    if combo = "" then (bindings, -1)
    else
      (bindings ++ [{ id := freshId, keys := parseCombo combo,
                      combo := combo, callback := cb }],
       (freshId : Int))

/-- The argument of `unbind`: a numeric id or a combo string. -/
inductive IdOrCombo where
  | id (n : Nat)
  | combo (s : String)

/-- Remove the first binding with the given id (the
`findIndex` / `splice(index, 1)` branch of `unbind`); `none` when no
binding has the id. -/
def removeFirstById (n : Nat) : List Binding → Option (List Binding)
  | [] => none
  | b :: rest =>
    if b.id = n then some rest
    else (removeFirstById n rest).map (b :: ·)

/-- Remove every binding with the given combo (the backwards splice
loop of `unbind`), returning the survivors and whether any was found. -/
def removeAllCombo (s : String) : List Binding → List Binding × Bool
  | [] => ([], false)
  | b :: rest =>
    let r := removeAllCombo s rest
    if b.combo = s then (r.1, true) else (b :: r.1, r.2)

/-- `unbind`: a falsy argument (`0` or `""`) is rejected; a number
removes the first binding with that id; a string removes every binding
with that combo. Returns the new registry and the boolean result. -/
def unbind (bindings : List Binding) : IdOrCombo → List Binding × Bool
  | .id n =>
    if n = 0 then (bindings, false)
    else
      match removeFirstById n bindings with
      | some rest => (rest, true)
      | none => (bindings, false)
  | .combo s =>
    if s = "" then (bindings, false)
    else removeAllCombo s bindings

/-- `unbindAll`: truncate the registry to length zero. -/
def unbindAll (_bindings : List Binding) : List Binding := []

/-- An observable action of a dispatch, in performed order. -/
inductive Action where
  | invoke (b : Binding) (r : RetVal)
  | preventDefault
  | stopPropagation

/-- `modifierState` bookkeeping at the top of `handleKeyEvent`:
exact-case comparisons against the raw `event.key`. -/
def updateModifierState (s : ModifierState) (e : Event) : ModifierState :=
  if e.type = EventType.keydown then
    if e.key = "Shift" then { s with shift := true }
    else if e.key = "Control" then { s with ctrl := true }
    else if e.key = "Alt" then { s with alt := true }
    else if e.key = "Meta" then { s with meta := true }
    else s
  else if e.type = EventType.keyup then
    if e.key = "Shift" then { s with shift := false }
    else if e.key = "Control" then { s with ctrl := false }
    else if e.key = "Alt" then { s with alt := false }
    else if e.key = "Meta" then { s with meta := false }
    else s
  else s

/-- The matching loop of `handleKeyEvent`: every binding whose stored
combo equals the canonical combo is invoked; a callback returning
exactly `false` makes the loop call preventDefault and
stopPropagation. -/
def keyLoop (e : Event) (combo : String) : List Binding → List Action
  | [] => []
  | b :: rest =>
    if b.combo = combo then
      Action.invoke b (b.callback e) ::
        ((if b.callback e = RetVal.rFalse then
            [Action.preventDefault, Action.stopPropagation]
          else []) ++ keyLoop e combo rest)
    else keyLoop e combo rest

/-- `handleKeyEvent`: update the modifier cache, then dispatch on
keydown only, skipping the empty combo. -/
def handleKeyEvent (bindings : List Binding) (s : ModifierState)
    (e : Event) : ModifierState × List Action :=
  let s1 := updateModifierState s e
  if e.type = EventType.keydown then
    let combo := getComboFromEvent e
    if combo = "" then (s1, [])
    else (s1, keyLoop e combo bindings)
  else (s1, [])

/-- The matching loop of `handleMouseEvent`: the first binding whose
stored combo equals the canonical combo is invoked, then the loop
returns. -/
def mouseLoop (e : Event) (combo : String) : List Binding → List Action
  | [] => []
  | b :: rest =>
    if b.combo = combo then [Action.invoke b (b.callback e)]
    else mouseLoop e combo rest

/-- `handleMouseEvent`: dispatch a wheel or mouse event, skipping the
empty combo; it never prevents defaults itself. -/
def handleMouseEvent (bindings : List Binding) (e : Event) : List Action :=
  let combo := getComboFromEvent e
  if combo = "" then []
  else mouseLoop e combo bindings

/-- The capture-phase mousedown listener: for non-primary buttons only,
check whether the combo is bound, and only then prevent defaults and
hand the event to `handleMouseEvent`. -/
def mousedownListener (bindings : List Binding) (e : Event) : List Action :=
  if e.button ≠ 0 then
    let combo := getComboFromEvent e
    if bindings.any (fun b => b.combo = combo) then
      Action.preventDefault :: Action.stopPropagation ::
        handleMouseEvent bindings e
    else []
  else []

/-- The document-level listener wiring: keydown and keyup go to
`handleKeyEvent`, wheel to `handleMouseEvent`, mousedown to the
filtering mousedown listener. -/
def dispatch (bindings : List Binding) (s : ModifierState) (e : Event) :
    ModifierState × List Action :=
  match e.type with
  | .keydown => handleKeyEvent bindings s e
  | .keyup => handleKeyEvent bindings s e
  | .wheel => (s, handleMouseEvent bindings e)
  | .mousedown => (s, mousedownListener bindings e)

/-- The bindings invoked by a trace, in invocation order. -/
def invokedOf : List Action → List Binding
  | [] => []
  | .invoke b _ :: rest => b :: invokedOf rest
  | .preventDefault :: rest => invokedOf rest
  | .stopPropagation :: rest => invokedOf rest

/-- Spec-side view of joined leading tokens: each list element followed
by a "+" separator. -/
def joinPlusHead : List String → String
  | [] => ""
  | s :: rest => s ++ "+" ++ joinPlusHead rest

/-- Spec-side view of the modifier contribution to a canonical combo:
the "modifier prefix", each present flag contributing its token and a
"+" in the fixed order shift, ctrl, alt, cmd. -/
def modsHead (e : Event) : String :=
  (if e.shiftKey then "shift+" else "") ++
  (if e.ctrlKey then "ctrl+" else "") ++
  (if e.altKey then "alt+" else "") ++
  (if e.metaKey then "cmd+" else "")

/-- The lowered key names that the keyboard branch treats as bare
modifiers. -/
def isBareModifier (k : String) : Prop :=
  k = "shift" ∨ k = "control" ∨ k = "alt" ∨ k = "meta"

instance (k : String) : Decidable (isBareModifier k) := by
  unfold isBareModifier
  infer_instance

theorem joinPlus_append_single (l : List String) (t : String) :
    joinPlus (l ++ [t]) = joinPlusHead l ++ t := by
  induction l with
  | nil => simp [joinPlus, joinPlusHead, String.empty_append]
  | cons s rest ih =>
    cases rest with
    | nil =>
      show joinPlus [s, t] = (s ++ "+" ++ "") ++ t
      simp [joinPlus, joinPlusHead, String.append_empty, String.append_assoc]
    | cons s2 r2 =>
      show s ++ "+" ++ joinPlus ((s2 :: r2) ++ [t]) = s ++ "+" ++ joinPlusHead (s2 :: r2) ++ t
      rw [ih, String.append_assoc, String.append_assoc, String.append_assoc]

theorem joinPlusHead_modifierKeys (e : Event) :
    joinPlusHead (modifierKeys e) = modsHead e := by
  obtain ⟨t, sh, ct, al, me, k, b, d⟩ := e
  cases sh <;> cases ct <;> cases al <;> cases me <;> rfl

theorem getCombo_wheel (e : Event) (h : e.type = EventType.wheel) :
    getComboFromEvent e =
      modsHead e ++ (if e.deltaY < 0 then "wheel_up" else "wheel_down") := by
  simp only [getComboFromEvent, h]
  rw [if_pos trivial, joinPlus_append_single, joinPlusHead_modifierKeys]

theorem getCombo_mousedown (e : Event) (h : e.type = EventType.mousedown) :
    getComboFromEvent e =
      modsHead e ++ (if e.button = 1 then "middle_click"
                     else "mouse" ++ toString (e.button + 1)) := by
  simp only [getComboFromEvent, h]
  rw [if_neg (by decide), if_pos trivial]
  by_cases hb : e.button = 1
  · rw [if_pos hb, if_pos hb, joinPlus_append_single, joinPlusHead_modifierKeys]
  · rw [if_neg hb, if_neg hb, joinPlus_append_single, joinPlusHead_modifierKeys]

theorem getCombo_key_bare (e : Event) (hw : e.type ≠ EventType.wheel)
    (hm : e.type ≠ EventType.mousedown)
    (hk : isBareModifier (toLowerCase e.key)) : getComboFromEvent e = "" := by
  unfold isBareModifier at hk
  simp only [getComboFromEvent]
  rw [if_neg hw, if_neg hm, if_pos hk]

theorem getCombo_key (e : Event) (hw : e.type ≠ EventType.wheel)
    (hm : e.type ≠ EventType.mousedown)
    (hk : ¬ isBareModifier (toLowerCase e.key)) :
    getComboFromEvent e = modsHead e ++ normalizeKey (toLowerCase e.key) := by
  unfold isBareModifier at hk
  simp only [getComboFromEvent]
  rw [if_neg hw, if_neg hm, if_neg hk,
      joinPlus_append_single, joinPlusHead_modifierKeys]

theorem invokedOf_append (t1 t2 : List Action) :
    invokedOf (t1 ++ t2) = invokedOf t1 ++ invokedOf t2 := by
  induction t1 with
  | nil => rfl
  | cons a rest ih => cases a <;> simp [invokedOf, ih]

theorem invokedOf_keyLoop (e : Event) (c : String) (bs : List Binding) :
    invokedOf (keyLoop e c bs) = bs.filter (fun b => decide (b.combo = c)) := by
  induction bs with
  | nil => rfl
  | cons b rest ih =>
    by_cases h : b.combo = c
    · have hpd : invokedOf
          ((if b.callback e = RetVal.rFalse then
              [Action.preventDefault, Action.stopPropagation]
            else []) ++ keyLoop e c rest) = invokedOf (keyLoop e c rest) := by
        split <;> rfl
      simp only [keyLoop, if_pos h, invokedOf, hpd, ih, List.filter_cons]
      rw [if_pos (by simp [h])]
    · simp only [keyLoop, if_neg h, ih, List.filter_cons]
      rw [if_neg (by simp [h])]

theorem invokedOf_mouseLoop (e : Event) (c : String) (bs : List Binding) :
    invokedOf (mouseLoop e c bs) =
      (bs.filter (fun b => decide (b.combo = c))).take 1 := by
  induction bs with
  | nil => rfl
  | cons b rest ih =>
    by_cases h : b.combo = c
    · simp only [mouseLoop, if_pos h, invokedOf, List.filter_cons]
      rw [if_pos (by simp [h])]
      rfl
    · simp only [mouseLoop, if_neg h, ih, List.filter_cons]
      rw [if_neg (by simp [h])]

theorem mouseLoop_only_invokes (e : Event) (c : String) (bs : List Binding) :
    ∀ a ∈ mouseLoop e c bs, ∃ b r, a = Action.invoke b r := by
  induction bs with
  | nil => intro a ha; cases ha
  | cons b rest ih =>
    intro a ha
    by_cases h : b.combo = c
    · rw [mouseLoop, if_pos h, List.mem_singleton] at ha
      exact ⟨b, b.callback e, ha⟩
    · rw [mouseLoop, if_neg h] at ha
      exact ih a ha

theorem keyLoop_pd_mem (e : Event) (c : String) (bs : List Binding) :
    Action.preventDefault ∈ keyLoop e c bs ↔
      ∃ b ∈ bs, b.combo = c ∧ b.callback e = RetVal.rFalse := by
  induction bs with
  | nil => simp [keyLoop]
  | cons b rest ih =>
    by_cases h : b.combo = c
    · by_cases hr : b.callback e = RetVal.rFalse
      · simp [keyLoop, h, hr]
      · simp [keyLoop, h, hr, ih]
    · simp [keyLoop, h, ih]

theorem keyLoop_sp_mem (e : Event) (c : String) (bs : List Binding) :
    Action.stopPropagation ∈ keyLoop e c bs ↔
      ∃ b ∈ bs, b.combo = c ∧ b.callback e = RetVal.rFalse := by
  induction bs with
  | nil => simp [keyLoop]
  | cons b rest ih =>
    by_cases h : b.combo = c
    · by_cases hr : b.callback e = RetVal.rFalse
      · simp [keyLoop, h, hr]
      · simp [keyLoop, h, hr, ih]
    · simp [keyLoop, h, ih]

theorem handleKeyEvent_snd (bs : List Binding) (st : ModifierState)
    (e : Event) :
    (handleKeyEvent bs st e).2 =
      if e.type = EventType.keydown then
        (if getComboFromEvent e = "" then []
         else keyLoop e (getComboFromEvent e) bs)
      else [] := by
  unfold handleKeyEvent
  by_cases ht : e.type = EventType.keydown
  · rw [if_pos ht, if_pos ht]
    by_cases hc : getComboFromEvent e = ""
    · rw [if_pos hc, if_pos hc]
    · rw [if_neg hc, if_neg hc]
  · rw [if_neg ht, if_neg ht]

theorem invoked_handleKey (bs : List Binding) (st : ModifierState)
    (e : Event) :
    invokedOf (handleKeyEvent bs st e).2 =
      if e.type = EventType.keydown ∧ getComboFromEvent e ≠ "" then
        bs.filter (fun b => decide (b.combo = getComboFromEvent e))
      else [] := by
  rw [handleKeyEvent_snd]
  by_cases ht : e.type = EventType.keydown
  · by_cases hc : getComboFromEvent e = ""
    · simp [ht, hc, invokedOf]
    · simp [ht, hc, invokedOf_keyLoop]
  · simp [ht, invokedOf]

theorem invoked_handleMouse (bs : List Binding) (e : Event) :
    invokedOf (handleMouseEvent bs e) =
      if getComboFromEvent e = "" then []
      else (bs.filter
        (fun b => decide (b.combo = getComboFromEvent e))).take 1 := by
  unfold handleMouseEvent
  by_cases hc : getComboFromEvent e = ""
  · simp [hc, invokedOf]
  · simp [hc, invokedOf_mouseLoop]

theorem invoked_mousedownListener (bs : List Binding) (e : Event) :
    invokedOf (mousedownListener bs e) =
      if e.button = 0 then [] else invokedOf (handleMouseEvent bs e) := by
  unfold mousedownListener
  by_cases hb : e.button = 0
  · simp [hb, invokedOf]
  · rw [if_neg hb, if_pos hb]
    by_cases ha : bs.any (fun b => decide (b.combo = getComboFromEvent e)) = true
    · simp [ha, invokedOf]
    · rw [if_neg ha]
      have hfil : bs.filter
          (fun b => decide (b.combo = getComboFromEvent e)) = [] := by
        rw [List.filter_eq_nil_iff]
        intro b hbmem hbc
        exact ha (List.any_eq_true.mpr ⟨b, hbmem, hbc⟩)
      rw [invoked_handleMouse]
      by_cases hc : getComboFromEvent e = ""
      · simp [hc, invokedOf]
      · simp [hc, hfil, invokedOf]

/-- ASCII uppercase letters, by code point. -/
def isUpperASCII (c : Char) : Prop := 65 ≤ c.toNat ∧ c.toNat ≤ 90

instance (c : Char) : Decidable (isUpperASCII c) := by
  unfold isUpperASCII
  infer_instance

/-- A character that is neither an ASCII uppercase letter nor one of
space, ">", "<". -/
def goodChar (c : Char) : Prop :=
  ¬ isUpperASCII c ∧ c ≠ ' ' ∧ c ≠ '>' ∧ c ≠ '<'

instance (c : Char) : Decidable (goodChar c) := by
  unfold goodChar
  infer_instance

/-- No ASCII uppercase character occurs in the string. -/
def noUpper (s : String) : Prop := ∀ c ∈ s.data, ¬ isUpperASCII c

instance (s : String) : Decidable (noUpper s) := by
  unfold noUpper
  infer_instance

/-- None of space, ">", "<" occurs in the string. -/
def noWsAngle (s : String) : Prop := ∀ c ∈ s.data, c ≠ ' ' ∧ c ≠ '>' ∧ c ≠ '<'

instance (s : String) : Decidable (noWsAngle s) := by
  unfold noWsAngle
  infer_instance

theorem toNat_toLower_of_upper (c : Char) (h1 : 65 ≤ c.toNat)
    (h2 : c.toNat ≤ 90) : (Char.toLower c).toNat = c.toNat + 32 := by
  simp only [Char.toLower]
  rw [if_pos ⟨h1, h2⟩]
  generalize c.toNat = n at h1 h2 ⊢
  interval_cases n <;> decide

theorem toLower_of_not_upper (c : Char) (h : ¬ isUpperASCII c) :
    Char.toLower c = c := by
  simp only [Char.toLower]
  exact if_neg (fun hc => h ⟨hc.1, hc.2⟩)

theorem not_upper_toLower (c : Char) : ¬ isUpperASCII (Char.toLower c) := by
  by_cases h : isUpperASCII c
  · intro hu
    have ht := toNat_toLower_of_upper c h.1 h.2
    unfold isUpperASCII at h hu
    omega
  · rw [toLower_of_not_upper c h]
    exact h

theorem toLower_preserves_good (c : Char) (h : c ≠ ' ' ∧ c ≠ '>' ∧ c ≠ '<') :
    Char.toLower c ≠ ' ' ∧ Char.toLower c ≠ '>' ∧ Char.toLower c ≠ '<' := by
  by_cases hu : isUpperASCII c
  · have ht := toNat_toLower_of_upper c hu.1 hu.2
    refine ⟨fun hc => ?_, fun hc => ?_, fun hc => ?_⟩ <;>
      rw [hc] at ht <;> revert ht <;> unfold isUpperASCII at hu <;>
      simp <;> omega
  · rw [toLower_of_not_upper c hu]
    exact h

theorem noUpper_toLowerCase (s : String) : noUpper (toLowerCase s) := by
  intro c hc
  simp only [toLowerCase, List.mem_map] at hc
  obtain ⟨c0, _, hc0⟩ := hc
  rw [← hc0]
  exact not_upper_toLower c0

theorem noWsAngle_toLowerCase (s : String) (h : noWsAngle s) :
    noWsAngle (toLowerCase s) := by
  intro c hc
  simp only [toLowerCase, List.mem_map] at hc
  obtain ⟨c0, hmem, hc0⟩ := hc
  rw [← hc0]
  exact toLower_preserves_good c0 (h c0 hmem)

theorem noUpper_append (a b : String) (ha : noUpper a) (hb : noUpper b) :
    noUpper (a ++ b) := by
  intro c hc
  rw [String.data_append] at hc
  rcases List.mem_append.mp hc with h | h
  · exact ha c h
  · exact hb c h

theorem noWsAngle_append (a b : String) (ha : noWsAngle a)
    (hb : noWsAngle b) : noWsAngle (a ++ b) := by
  intro c hc
  rw [String.data_append] at hc
  rcases List.mem_append.mp hc with h | h
  · exact ha c h
  · exact hb c h

theorem noUpper_iteStr (b : Bool) (s : String) (h : noUpper s) :
    noUpper (if b then s else "") := by
  cases b
  · simpa using (by decide : noUpper "")
  · simpa using h

theorem noWsAngle_iteStr (b : Bool) (s : String) (h : noWsAngle s) :
    noWsAngle (if b then s else "") := by
  cases b
  · simpa using (by decide : noWsAngle "")
  · simpa using h

theorem noUpper_modsHead (e : Event) : noUpper (modsHead e) := by
  unfold modsHead
  exact noUpper_append _ _
    (noUpper_append _ _
      (noUpper_append _ _
        (noUpper_iteStr _ _ (by decide)) (noUpper_iteStr _ _ (by decide)))
      (noUpper_iteStr _ _ (by decide)))
    (noUpper_iteStr _ _ (by decide))

theorem noWsAngle_modsHead (e : Event) : noWsAngle (modsHead e) := by
  unfold modsHead
  exact noWsAngle_append _ _
    (noWsAngle_append _ _
      (noWsAngle_append _ _
        (noWsAngle_iteStr _ _ (by decide)) (noWsAngle_iteStr _ _ (by decide)))
      (noWsAngle_iteStr _ _ (by decide)))
    (noWsAngle_iteStr _ _ (by decide))

theorem noUpper_normalizeKey (k : String) : noUpper (normalizeKey k) := by
  unfold normalizeKey
  repeat' split
  all_goals first
    | decide
    | exact noUpper_toLowerCase k

theorem noWsAngle_normalizeKey (k : String) (h : noWsAngle k) :
    noWsAngle (normalizeKey k) := by
  unfold normalizeKey
  repeat' split
  all_goals first
    | decide
    | exact noWsAngle_toLowerCase k h

theorem digitChar_good (n : Nat) : goodChar (Nat.digitChar n) := by
  by_cases h : n < 16
  · interval_cases n <;> decide
  · unfold Nat.digitChar
    repeat rw [if_neg (show ¬ _ = _ by omega)]
    decide

theorem toDigitsCore_good (b : Nat) (f : Nat) :
    ∀ (n : Nat) (ds : List Char), (∀ c ∈ ds, goodChar c) →
      ∀ c ∈ Nat.toDigitsCore b f n ds, goodChar c := by
  induction f with
  | zero => intro n ds hds c hc; exact hds c hc
  | succ f ih =>
    intro n ds hds c hc
    rw [Nat.toDigitsCore] at hc
    split at hc
    · rcases List.mem_cons.mp hc with h | h
      · rw [h]; exact digitChar_good _
      · exact hds c h
    · refine ih (n / b) (Nat.digitChar (n % b) :: ds) ?_ c hc
      intro c2 hc2
      rcases List.mem_cons.mp hc2 with h | h
      · rw [h]; exact digitChar_good _
      · exact hds c2 h

theorem repr_good (n : Nat) : ∀ c ∈ (Nat.repr n).data, goodChar c := by
  intro c hc
  unfold Nat.repr at hc
  have : (Nat.toDigits 10 n).asString.data = Nat.toDigits 10 n := rfl
  rw [this] at hc
  exact toDigitsCore_good 10 (n + 1) n [] (by intro c2 hc2; cases hc2) c hc

theorem noUpper_natToString (n : Nat) : noUpper (toString n) := by
  intro c hc
  exact (repr_good n c hc).1

theorem noWsAngle_natToString (n : Nat) : noWsAngle (toString n) := by
  intro c hc
  exact (repr_good n c hc).2

theorem removeAllCombo_eq (s : String) (bs : List Binding) :
    removeAllCombo s bs =
      (bs.filter (fun b => decide (¬ b.combo = s)),
       bs.any (fun b => decide (b.combo = s))) := by
  induction bs with
  | nil => rfl
  | cons b rest ih =>
    by_cases h : b.combo = s
    · simp only [removeAllCombo, ih, if_pos h, List.filter_cons, List.any_cons, h]
      simp
    · simp only [removeAllCombo, ih, if_neg h, List.filter_cons, List.any_cons]
      simp [h]

theorem removeFirstById_none (n : Nat) (bs : List Binding)
    (h : ∀ b ∈ bs, b.id ≠ n) : removeFirstById n bs = none := by
  induction bs with
  | nil => rfl
  | cons b rest ih =>
    rw [removeFirstById, if_neg (h b (List.mem_cons_self b rest)),
        ih (fun b2 h2 => h b2 (List.mem_cons_of_mem b h2))]
    rfl

theorem removeFirstById_some (n : Nat) (bs : List Binding)
    (h : ∃ b ∈ bs, b.id = n) :
    removeFirstById n bs =
      some (bs.eraseP (fun b => decide (b.id = n))) := by
  induction bs with
  | nil => obtain ⟨b, hb, _⟩ := h; cases hb
  | cons b rest ih =>
    by_cases hb : b.id = n
    · rw [removeFirstById, if_pos hb, List.eraseP_cons]
      simp [hb]
    · have hrest : ∃ b2 ∈ rest, b2.id = n := by
        obtain ⟨b2, hmem, hid⟩ := h
        rcases List.mem_cons.mp hmem with heq | hmem2
        · exact absurd (heq ▸ hid) hb
        · exact ⟨b2, hmem2, hid⟩
      rw [removeFirstById, if_neg hb, ih hrest, List.eraseP_cons]
      simp [hb]

/-- Overwrite the `keys` field of a binding, leaving id, combo and
callback unchanged: used to state that dispatch never consults the
token list `bind` computed with `parseCombo`. -/
def setKeys (ks : List String) (b : Binding) : Binding := { b with keys := ks }

/-- Push a binding transformation through a trace action. -/
def mapActBinding (f : Binding → Binding) : Action → Action
  | .invoke b r => .invoke (f b) r
  | .preventDefault => .preventDefault
  | .stopPropagation => .stopPropagation

theorem keyLoop_setKeys (e : Event) (c : String) (ks : List String)
    (bs : List Binding) :
    keyLoop e c (bs.map (setKeys ks)) =
      (keyLoop e c bs).map (mapActBinding (setKeys ks)) := by
  induction bs with
  | nil => rfl
  | cons b rest ih =>
    by_cases h : b.combo = c
    · have h2 : (setKeys ks b).combo = c := h
      rw [List.map_cons, keyLoop, if_pos h2, keyLoop, if_pos h,
          List.map_cons, List.map_append, ih]
      by_cases hrf : b.callback e = RetVal.rFalse
      · rw [if_pos hrf,
            if_pos (show (setKeys ks b).callback e = RetVal.rFalse from hrf)]
        rfl
      · rw [if_neg hrf,
            if_neg (show ¬ (setKeys ks b).callback e = RetVal.rFalse from hrf)]
        rfl
    · have h2 : ¬ (setKeys ks b).combo = c := h
      rw [List.map_cons, keyLoop, if_neg h2, keyLoop, if_neg h, ih]

theorem mouseLoop_setKeys (e : Event) (c : String) (ks : List String)
    (bs : List Binding) :
    mouseLoop e c (bs.map (setKeys ks)) =
      (mouseLoop e c bs).map (mapActBinding (setKeys ks)) := by
  induction bs with
  | nil => rfl
  | cons b rest ih =>
    by_cases h : b.combo = c
    · have h2 : (setKeys ks b).combo = c := h
      rw [List.map_cons, mouseLoop, if_pos h2, mouseLoop, if_pos h]
      rfl
    · have h2 : ¬ (setKeys ks b).combo = c := h
      rw [List.map_cons, mouseLoop, if_neg h2, mouseLoop, if_neg h, ih]

theorem handleKeyEvent_setKeys (bs : List Binding) (st : ModifierState)
    (e : Event) (ks : List String) :
    handleKeyEvent (bs.map (setKeys ks)) st e =
      ((handleKeyEvent bs st e).1,
       (handleKeyEvent bs st e).2.map (mapActBinding (setKeys ks))) := by
  unfold handleKeyEvent
  by_cases ht : e.type = EventType.keydown
  · rw [if_pos ht, if_pos ht]
    by_cases hc : getComboFromEvent e = ""
    · rw [if_pos hc, if_pos hc]
      rfl
    · rw [if_neg hc, if_neg hc]
      exact Prod.ext rfl (keyLoop_setKeys e _ ks bs)
  · rw [if_neg ht, if_neg ht]
    rfl

theorem handleMouseEvent_setKeys (bs : List Binding) (e : Event)
    (ks : List String) :
    handleMouseEvent (bs.map (setKeys ks)) e =
      (handleMouseEvent bs e).map (mapActBinding (setKeys ks)) := by
  unfold handleMouseEvent
  by_cases hc : getComboFromEvent e = ""
  · rw [if_pos hc, if_pos hc]
    rfl
  · rw [if_neg hc, if_neg hc]
    exact mouseLoop_setKeys e _ ks bs

theorem mousedownListener_setKeys (bs : List Binding) (e : Event)
    (ks : List String) :
    mousedownListener (bs.map (setKeys ks)) e =
      (mousedownListener bs e).map (mapActBinding (setKeys ks)) := by
  simp only [mousedownListener]
  by_cases hb : e.button = 0
  · rw [if_neg (not_not_intro hb), if_neg (not_not_intro hb)]
    rfl
  · rw [if_pos hb, if_pos hb]
    have hany : ((bs.map (setKeys ks)).any
        (fun b => decide (b.combo = getComboFromEvent e))) =
        (bs.any (fun b => decide (b.combo = getComboFromEvent e))) := by
      rw [List.any_map]
      rfl
    rw [hany]
    by_cases ha : bs.any (fun b => decide (b.combo = getComboFromEvent e)) = true
    · rw [if_pos ha, if_pos ha, handleMouseEvent_setKeys]
      rfl
    · rw [if_neg ha, if_neg ha]
      rfl

theorem dispatch_setKeys (bs : List Binding) (st : ModifierState)
    (e : Event) (ks : List String) :
    dispatch (bs.map (setKeys ks)) st e =
      ((dispatch bs st e).1,
       (dispatch bs st e).2.map (mapActBinding (setKeys ks))) := by
  unfold dispatch
  cases e.type
  · exact handleKeyEvent_setKeys bs st e ks
  · exact handleKeyEvent_setKeys bs st e ks
  · exact Prod.ext rfl (handleMouseEvent_setKeys bs e ks)
  · exact Prod.ext rfl (mousedownListener_setKeys bs e ks)

theorem append_right_ne_empty (a b : String) (hb : b ≠ "") :
    a ++ b ≠ "" := by
  intro h
  apply hb
  have hd := congrArg String.data h
  rw [String.data_append] at hd
  exact String.ext (List.append_eq_nil.mp hd).2

/-- Model of which bindings a dispatched event invokes, written from
the specification claims: keydown fires every binding whose stored
combo equals the canonical combo, in registry order; wheel and
non-primary mousedown fire only the first such binding; keyup, primary
mousedown and empty combos fire nothing. -/
def invokedModel (bs : List Binding) (e : Event) : List Binding :=
  let c := getComboFromEvent e
  let matched := bs.filter (fun b => decide (b.combo = c))
  match e.type with
  | EventType.keydown => if c = "" then [] else matched
  | EventType.keyup => []
  | EventType.wheel => if c = "" then [] else matched.take 1
  | EventType.mousedown =>
    if e.button = 0 then [] else if c = "" then [] else matched.take 1

def c1exCallbackA : CB := fun _ => RetVal.rTrue
def c1exCallbackB : CB := fun _ => RetVal.rUndefined

def c1exBindings : List Binding :=
  [⟨1, ["wheel_up"], "wheel_up", c1exCallbackA⟩,
   ⟨2, ["wheel_up"], "wheel_up", c1exCallbackB⟩]

def c1exEvent : Event :=
  ⟨EventType.wheel, false, false, false, false, "", 0, -10⟩

/-- Claim C1, counterexample: a wheel event whose canonical combo
"wheel_up" is stored by two bindings matches both, yet dispatch
invokes only one callback, because `handleMouseEvent` returns after
the first match. The claim asserts every matching binding fires on
wheel events as well, which is false here. -/
theorem claim1_counterexample :
    (c1exBindings.filter
      (fun b => decide (b.combo = getComboFromEvent c1exEvent))).length = 2 ∧
    (invokedOf
      (dispatch c1exBindings ⟨false, false, false, false⟩ c1exEvent).2).length
      = 1 := by
  exact ⟨rfl, rfl⟩

theorem invokedOf_dispatch_eq (bs : List Binding) (st : ModifierState)
    (e : Event) : invokedOf (dispatch bs st e).2 = invokedModel bs e := by
  unfold invokedModel dispatch
  cases ht : e.type
  case keydown =>
    rw [invoked_handleKey]
    by_cases hc : getComboFromEvent e = ""
    · simp [ht, hc]
    · simp [ht, hc]
  case keyup =>
    rw [invoked_handleKey]
    simp [ht]
  case wheel =>
    rw [invoked_handleMouse]
  case mousedown =>
    rw [invoked_mousedownListener]
    by_cases hb : e.button = 0
    · simp [hb]
    · simp only [if_neg hb]
      rw [invoked_handleMouse]

/-- Claim C1, amended: for every registry state and dispatched event,
keydown dispatch invokes the callback of every stored binding whose
combo equals the canonical combo, in registry insertion order (so a
combo bound twice fires both callbacks); wheel and non-primary
mousedown dispatch invoke only the first matching binding; keyup and
primary-button mousedown invoke nothing. -/
theorem claim1_dispatch_invocations (bs : List Binding)
    (st : ModifierState) (e : Event) :
    invokedOf (dispatch bs st e).2 = invokedModel bs e :=
  invokedOf_dispatch_eq bs st e

/-- Claim C3: for every wheel event the canonical combo is the
modifier prefix followed by "wheel_up" exactly when the vertical delta
is negative and "wheel_down" otherwise, and it is never the empty
string. -/
theorem claim3_wheel_combo (e : Event) (h : e.type = EventType.wheel) :
    getComboFromEvent e =
      modsHead e ++ (if e.deltaY < 0 then "wheel_up" else "wheel_down") ∧
    getComboFromEvent e ≠ "" := by
  refine ⟨getCombo_wheel e h, ?_⟩
  rw [getCombo_wheel e h]
  by_cases hd : e.deltaY < 0
  · rw [if_pos hd]
    exact append_right_ne_empty _ _ (by decide)
  · rw [if_neg hd]
    exact append_right_ne_empty _ _ (by decide)

def c3exEventUp : Event :=
  ⟨EventType.wheel, false, false, false, false, "", 0, -10⟩

def c3exEventDown : Event :=
  ⟨EventType.wheel, false, false, false, false, "", 0, 10⟩

/-- Claim C3, witness: deltaY = -10 with no modifiers yields
"wheel_up" and deltaY = +10 yields "wheel_down". -/
theorem claim3_witness :
    getComboFromEvent c3exEventUp = "wheel_up" ∧
    getComboFromEvent c3exEventDown = "wheel_down" :=
  ⟨(claim3_wheel_combo c3exEventUp rfl).1.trans rfl,
   (claim3_wheel_combo c3exEventDown rfl).1.trans rfl⟩

/-- Claim C9: for every mousedown event the canonical combo is the
modifier prefix followed by "middle_click" when the button index is 1
and by "mouse" concatenated with the successor of the button index
otherwise; in particular the primary button (index 0) normalizes to
"mouse1". -/
theorem claim9_mousedown_combo (e : Event)
    (h : e.type = EventType.mousedown) :
    getComboFromEvent e =
      modsHead e ++ (if e.button = 1 then "middle_click"
                     else "mouse" ++ toString (e.button + 1)) ∧
    (e.button = 0 → getComboFromEvent e = modsHead e ++ "mouse1") := by
  refine ⟨getCombo_mousedown e h, fun hb => ?_⟩
  rw [getCombo_mousedown e h, if_neg (by rw [hb]; decide), hb]
  rfl

def c9exEvent : Event :=
  ⟨EventType.mousedown, false, false, false, false, "", 0, 0⟩

/-- Claim C9, witness: a primary-button mousedown with no modifiers
normalizes to "mouse1", and a middle-button press to "middle_click". -/
theorem claim9_witness :
    getComboFromEvent c9exEvent = "mouse1" :=
  ((claim9_mousedown_combo c9exEvent rfl).2 rfl).trans rfl

/-- Claim C10: unbindAll empties the registry, and dispatching any
event against the emptied registry performs no action at all — in
particular no previously bound callback is invoked, whatever the prior
registry state was. -/
theorem claim10_unbindAll (bs : List Binding) (st : ModifierState)
    (e : Event) :
    unbindAll bs = [] ∧ (dispatch (unbindAll bs) st e).2 = [] := by
  refine ⟨rfl, ?_⟩
  show (dispatch [] st e).2 = []
  unfold dispatch
  cases ht : e.type
  case keydown =>
    rw [handleKeyEvent_snd]
    by_cases hc : getComboFromEvent e = "" <;> simp [ht, hc, keyLoop]
  case keyup =>
    rw [handleKeyEvent_snd]
    simp [ht]
  case wheel =>
    show handleMouseEvent [] e = []
    unfold handleMouseEvent
    by_cases hc : getComboFromEvent e = "" <;> simp [hc, mouseLoop]
  case mousedown =>
    show mousedownListener [] e = []
    unfold mousedownListener
    by_cases hb : e.button = 0
    · rw [if_neg (not_not_intro hb)]
    · rw [if_pos hb]
      simp

def c2exEvent : Event :=
  ⟨EventType.keydown, true, false, false, false, ">", 0, 0⟩

/-- Claim C2: alias keys normalize identically — keydown events with
equal modifier flags whose keys are ">" and ".", or "<" and ",", or
" " and "space", produce the same canonical combo; and after binding
"shift+." as the only binding, a keydown with shiftKey and key ">"
invokes that callback exactly once. -/
theorem claim2_alias_normalization :
    (∀ e1 e2 : Event, e1.type = EventType.keydown →
      e2.type = EventType.keydown →
      e1.shiftKey = e2.shiftKey → e1.ctrlKey = e2.ctrlKey →
      e1.altKey = e2.altKey → e1.metaKey = e2.metaKey →
      ((e1.key = ">" ∧ e2.key = ".") ∨ (e1.key = "<" ∧ e2.key = ",") ∨
        (e1.key = " " ∧ e2.key = "space")) →
      getComboFromEvent e1 = getComboFromEvent e2) ∧
    (∀ (cb : CB) (fid : Nat) (st : ModifierState),
      invokedOf
        (dispatch (bind [] "shift+." (some cb) fid).1 st c2exEvent).2 =
        [⟨fid, ["shift", "."], "shift+.", cb⟩]) := by
  constructor
  · intro e1 e2 ht1 ht2 h1 h2 h3 h4 halias
    have hmods : modsHead e1 = modsHead e2 := by
      unfold modsHead
      rw [h1, h2, h3, h4]
    rcases halias with ⟨hk1, hk2⟩ | ⟨hk1, hk2⟩ | ⟨hk1, hk2⟩ <;>
      rw [getCombo_key e1 (by rw [ht1]; decide) (by rw [ht1]; decide)
            (by rw [hk1]; decide),
          getCombo_key e2 (by rw [ht2]; decide) (by rw [ht2]; decide)
            (by rw [hk2]; decide), hmods, hk1, hk2] <;>
      rfl
  · intro cb fid st
    have hbind : (bind [] "shift+." (some cb) fid).1 =
        [⟨fid, ["shift", "."], "shift+.", cb⟩] := rfl
    rw [hbind]
    show invokedOf
      (handleKeyEvent [⟨fid, ["shift", "."], "shift+.", cb⟩] st c2exEvent).2
      = _
    rw [invoked_handleKey]
    rw [if_pos ⟨rfl, by decide⟩]
    rw [show getComboFromEvent c2exEvent = "shift+." from rfl]
    rfl

def c2exEventDot : Event :=
  ⟨EventType.keydown, true, false, false, false, ".", 0, 0⟩

def c2exWitCallback : CB := fun _ => RetVal.rTrue

/-- Claim C2, witness: the alias pair ">" and "." with shift held
produce the same combo, and binding "shift+." then dispatching a
shift + ">" keydown invokes exactly that one callback. -/
theorem claim2_witness :
    getComboFromEvent c2exEvent = getComboFromEvent c2exEventDot ∧
    invokedOf
      (dispatch (bind [] "shift+." (some c2exWitCallback) 7).1
        ⟨false, false, false, false⟩ c2exEvent).2 =
      [⟨7, ["shift", "."], "shift+.", c2exWitCallback⟩] :=
  ⟨claim2_alias_normalization.1 c2exEvent c2exEventDot rfl rfl rfl rfl rfl
      rfl (Or.inl ⟨rfl, rfl⟩),
   claim2_alias_normalization.2 c2exWitCallback 7
     ⟨false, false, false, false⟩⟩

/-- Claim C6: bind rejects an empty (falsy) combo or a non-callable
callback with the sentinel -1 and leaves the registry unchanged. -/
theorem claim6_bind_rejects_invalid (bs : List Binding) (combo : String)
    (cb : Option CB) (fid : Nat) (h : combo = "" ∨ cb = none) :
    bind bs combo cb fid = (bs, -1) := by
  rcases h with h | h
  · cases cb with
    | none => rfl
    | some f =>
      show (if combo = "" then (bs, -1) else _) = (bs, -1)
      rw [if_pos h]
  · rw [h]
    rfl

def c6exCallback : CB := fun _ => RetVal.rTrue

/-- Claim C6, witness: binding the empty combo, and binding with a
non-callable callback, both return -1 and leave a concrete registry
untouched. -/
theorem claim6_witness :
    bind [⟨3, ["x"], "x", c6exCallback⟩] "" (some c6exCallback) 9 =
      ([⟨3, ["x"], "x", c6exCallback⟩], -1) ∧
    bind [⟨3, ["x"], "x", c6exCallback⟩] "shift+a" none 9 =
      ([⟨3, ["x"], "x", c6exCallback⟩], -1) :=
  ⟨claim6_bind_rejects_invalid _ _ _ 9 (Or.inl rfl),
   claim6_bind_rejects_invalid _ _ _ 9 (Or.inr rfl)⟩

/-- Claim C8: a keydown whose key is a bare modifier (shift, control,
alt or meta, compared case-insensitively) yields the empty combo, and
dispatching it performs no action whatever bindings are registered. -/
theorem claim8_bare_modifier (bs : List Binding) (st : ModifierState)
    (e : Event) (ht : e.type = EventType.keydown)
    (hk : isBareModifier (toLowerCase e.key)) :
    getComboFromEvent e = "" ∧ (dispatch bs st e).2 = [] := by
  have hc := getCombo_key_bare e (by rw [ht]; decide) (by rw [ht]; decide) hk
  refine ⟨hc, ?_⟩
  unfold dispatch
  rw [ht]
  show (handleKeyEvent bs st e).2 = []
  rw [handleKeyEvent_snd, if_pos ht, if_pos hc]

def c8exEvent : Event :=
  ⟨EventType.keydown, true, false, false, false, "Shift", 0, 0⟩

def c8exCallback : CB := fun _ => RetVal.rFalse

/-- Claim C8, witness: a keydown with key "Shift" (and shiftKey set)
yields the empty combo and triggers no action even with a binding for
"shift" registered. -/
theorem claim8_witness :
    getComboFromEvent c8exEvent = "" ∧
    (dispatch [⟨4, ["shift"], "shift", c8exCallback⟩]
      ⟨false, false, false, false⟩ c8exEvent).2 = [] :=
  claim8_bare_modifier [⟨4, ["shift"], "shift", c8exCallback⟩]
    ⟨false, false, false, false⟩ c8exEvent rfl (by decide)

/-- Claim C7: unbind with a positive numeric id removes exactly the
one binding carrying that id when present (first occurrence) and
nothing otherwise; unbind with a non-empty combo string removes every
binding whose stored combo equals it; in both cases the boolean result
is true exactly when at least one binding was removed, and the
registry is untouched otherwise. Positivity and non-emptiness mirror
the falsy-argument guard: ids produced by bind are positive timestamps
and stored combos are never empty. -/
theorem claim7_unbind (bs : List Binding) :
    (∀ n : Nat, 0 < n →
      (unbind bs (.id n)).2 = bs.any (fun b => decide (b.id = n)) ∧
      ((∃ b ∈ bs, b.id = n) →
        (unbind bs (.id n)).1 = bs.eraseP (fun b => decide (b.id = n)) ∧
        (unbind bs (.id n)).1.length + 1 = bs.length) ∧
      ((∀ b ∈ bs, b.id ≠ n) → unbind bs (.id n) = (bs, false))) ∧
    (∀ s : String, s ≠ "" →
      unbind bs (.combo s) =
        (bs.filter (fun b => decide (¬ b.combo = s)),
         bs.any (fun b => decide (b.combo = s))) ∧
      ((∀ b ∈ bs, b.combo ≠ s) → unbind bs (.combo s) = (bs, false))) := by
  constructor
  · intro n hn
    have hne : ¬ n = 0 := by omega
    by_cases hex : ∃ b ∈ bs, b.id = n
    · obtain ⟨b0, hmem, hid⟩ := hex
      have hsome := removeFirstById_some n bs ⟨b0, hmem, hid⟩
      have hu : unbind bs (.id n) =
          (bs.eraseP (fun b => decide (b.id = n)), true) := by
        show (if n = 0 then (bs, false)
          else match removeFirstById n bs with
            | some rest => (rest, true)
            | none => (bs, false)) = _
        rw [if_neg hne, hsome]
      have hany : bs.any (fun b => decide (b.id = n)) = true :=
        List.any_eq_true.mpr ⟨b0, hmem, by simp [hid]⟩
      have hlen : (List.eraseP (fun b => decide (b.id = n)) bs).length =
          bs.length - 1 := List.length_eraseP_of_mem hmem (by simp [hid])
      have hpos : 0 < bs.length :=
        List.length_pos.mpr (List.ne_nil_of_mem hmem)
      refine ⟨by rw [hu, hany], fun _ => ⟨by rw [hu], ?_⟩,
        fun hall => absurd hid (hall b0 hmem)⟩
      rw [hu]
      show (bs.eraseP (fun b => decide (b.id = n))).length + 1 = bs.length
      omega
    · have hall : ∀ b ∈ bs, b.id ≠ n := by
        intro b hb hbid
        exact hex ⟨b, hb, hbid⟩
      have hnone := removeFirstById_none n bs hall
      have hu : unbind bs (.id n) = (bs, false) := by
        show (if n = 0 then (bs, false)
          else match removeFirstById n bs with
            | some rest => (rest, true)
            | none => (bs, false)) = _
        rw [if_neg hne, hnone]
      have hany : bs.any (fun b => decide (b.id = n)) = false := by
        rw [Bool.eq_false_iff]
        intro hc
        obtain ⟨b, hb, hbid⟩ := List.any_eq_true.mp hc
        exact hall b hb (by simpa using hbid)
      exact ⟨by rw [hu, hany], fun hex2 => absurd hex2 hex, fun _ => hu⟩
  · intro s hs
    have hu : unbind bs (.combo s) = removeAllCombo s bs := by
      show (if s = "" then (bs, false) else removeAllCombo s bs) = _
      rw [if_neg hs]
    constructor
    · rw [hu, removeAllCombo_eq]
    · intro hall
      rw [hu, removeAllCombo_eq]
      have hfil : bs.filter (fun b => decide (¬ b.combo = s)) = bs := by
        apply List.filter_eq_self.mpr
        intro b hb
        simp [hall b hb]
      have hany : bs.any (fun b => decide (b.combo = s)) = false := by
        rw [Bool.eq_false_iff]
        intro hc
        obtain ⟨b, hb, hbc⟩ := List.any_eq_true.mp hc
        exact hall b hb (by simpa using hbc)
      rw [hfil, hany]

def c7exCallback : CB := fun _ => RetVal.rTrue

def c7exB1 : Binding := ⟨5, ["a"], "a", c7exCallback⟩

def c7exB2 : Binding := ⟨6, ["a"], "a", c7exCallback⟩

/-- Claim C7, witness: on a registry holding two bindings that share
the combo "a", unbind by combo removes both and returns true; unbind
by id 5 removes exactly the first binding and returns true; unbind by
an absent id returns false and removes nothing. -/
theorem claim7_witness :
    unbind [c7exB1, c7exB2] (.combo "a") = ([], true) ∧
    (unbind [c7exB1, c7exB2] (.id 5)).1 = [c7exB2] ∧
    (unbind [c7exB1, c7exB2] (.id 5)).2 = true ∧
    unbind [c7exB1, c7exB2] (.id 9) = ([c7exB1, c7exB2], false) := by
  have h := claim7_unbind [c7exB1, c7exB2]
  have hmem : c7exB1 ∈ [c7exB1, c7exB2] := List.mem_cons_self _ _
  refine ⟨((h.2 "a" (by decide)).1).trans rfl,
    (((h.1 5 (by decide)).2.1 ⟨c7exB1, hmem, rfl⟩).1).trans rfl,
    ((h.1 5 (by decide)).1).trans rfl,
    (h.1 9 (by decide)).2.2 ?_⟩
  intro b hb
  rcases List.mem_cons.mp hb with h1 | h1
  · rw [h1]
    decide
  · rw [List.mem_singleton.mp h1]
    decide

theorem noUpper_getCombo (e : Event) : noUpper (getComboFromEvent e) := by
  by_cases hw : e.type = EventType.wheel
  · rw [getCombo_wheel e hw]
    refine noUpper_append _ _ (noUpper_modsHead e) ?_
    by_cases hd : e.deltaY < 0
    · rw [if_pos hd]
      decide
    · rw [if_neg hd]
      decide
  · by_cases hm : e.type = EventType.mousedown
    · rw [getCombo_mousedown e hm]
      refine noUpper_append _ _ (noUpper_modsHead e) ?_
      by_cases hb : e.button = 1
      · rw [if_pos hb]
        decide
      · rw [if_neg hb]
        exact noUpper_append _ _ (by decide) (noUpper_natToString _)
    · by_cases hk : isBareModifier (toLowerCase e.key)
      · rw [getCombo_key_bare e hw hm hk]
        decide
      · rw [getCombo_key e hw hm hk]
        exact noUpper_append _ _ (noUpper_modsHead e) (noUpper_normalizeKey _)

theorem noWsAngle_getCombo (e : Event)
    (hkey : e.type ≠ EventType.wheel → e.type ≠ EventType.mousedown →
      noWsAngle e.key) : noWsAngle (getComboFromEvent e) := by
  by_cases hw : e.type = EventType.wheel
  · rw [getCombo_wheel e hw]
    refine noWsAngle_append _ _ (noWsAngle_modsHead e) ?_
    by_cases hd : e.deltaY < 0
    · rw [if_pos hd]
      decide
    · rw [if_neg hd]
      decide
  · by_cases hm : e.type = EventType.mousedown
    · rw [getCombo_mousedown e hm]
      refine noWsAngle_append _ _ (noWsAngle_modsHead e) ?_
      by_cases hb : e.button = 1
      · rw [if_pos hb]
        decide
      · rw [if_neg hb]
        exact noWsAngle_append _ _ (by decide) (noWsAngle_natToString _)
    · by_cases hk : isBareModifier (toLowerCase e.key)
      · rw [getCombo_key_bare e hw hm hk]
        decide
      · rw [getCombo_key e hw hm hk]
        exact noWsAngle_append _ _ (noWsAngle_modsHead e)
          (noWsAngle_normalizeKey _ (noWsAngle_toLowerCase _ (hkey hw hm)))

theorem handleMouse_only_invokes (bs : List Binding) (e : Event) :
    ∀ a ∈ handleMouseEvent bs e, ∃ b r, a = Action.invoke b r := by
  unfold handleMouseEvent
  by_cases hc : getComboFromEvent e = ""
  · rw [if_pos hc]
    intro a ha
    cases ha
  · rw [if_neg hc]
    exact mouseLoop_only_invokes e _ bs

def c4exCallback : CB := fun _ => RetVal.rTrue

def c4exBadEvent : Event :=
  ⟨EventType.keydown, false, false, false, false, "a>b", 0, 0⟩

/-- Claim C4, counterexample: the claim asserts a binding whose combo
contains ">" is never invoked by any event, but a keydown whose key
string is itself "a>b" canonicalizes to "a>b" and does invoke the
binding stored by bind("a>b", ...). -/
theorem claim4_counterexample :
    ('>' ∈ ("a>b".data)) ∧
    invokedOf
      (dispatch (bind [] "a>b" (some c4exCallback) 11).1
        ⟨false, false, false, false⟩ c4exBadEvent).2 =
      [⟨11, parseCombo "a>b", "a>b", c4exCallback⟩] := by
  constructor
  · decide
  · rfl

/-- Claim C4, amended: dispatch matching compares the canonical combo
against the stored combo string verbatim, by exact string equality,
and never consults the parseCombo token list (overwriting every keys
field changes nothing but the keys fields of the reported trace); a
stored combo containing an ASCII uppercase letter is never invoked by
any event, and a stored combo containing whitespace, ">" or "<" is
never invoked by a wheel or mouse event, nor by a keydown whose key
string is itself free of whitespace, ">" and "<". -/
theorem claim4_matching_verbatim (bs : List Binding) (st : ModifierState)
    (e : Event) :
    (∀ ks, dispatch (bs.map (setKeys ks)) st e =
      ((dispatch bs st e).1,
       (dispatch bs st e).2.map (mapActBinding (setKeys ks)))) ∧
    ∀ b, b ∈ invokedOf (dispatch bs st e).2 →
      (b ∈ bs ∧ b.combo = getComboFromEvent e) ∧
      noUpper b.combo ∧
      ((e.type = EventType.keydown → noWsAngle e.key) →
        noWsAngle b.combo) := by
  refine ⟨fun ks => dispatch_setKeys bs st e ks, ?_⟩
  intro b
  rw [invokedOf_dispatch_eq]
  simp only [invokedModel]
  cases ht : e.type
  case keydown =>
    intro hb
    replace hb : b ∈ (if getComboFromEvent e = "" then ([] : List Binding)
        else bs.filter (fun b => decide (b.combo = getComboFromEvent e))) :=
      hb
    by_cases hc : getComboFromEvent e = ""
    · rw [if_pos hc] at hb
      cases hb
    · rw [if_neg hc] at hb
      have hf := List.mem_filter.mp hb
      have hce : b.combo = getComboFromEvent e := by simpa using hf.2
      refine ⟨⟨hf.1, hce⟩, ?_, ?_⟩
      · rw [hce]
        exact noUpper_getCombo e
      · intro hkey
        rw [hce]
        exact noWsAngle_getCombo e (fun hw hm => hkey rfl)
  case keyup =>
    intro hb
    replace hb : b ∈ ([] : List Binding) := hb
    cases hb
  case wheel =>
    intro hb
    replace hb : b ∈ (if getComboFromEvent e = "" then ([] : List Binding)
        else (bs.filter
          (fun b => decide (b.combo = getComboFromEvent e))).take 1) := hb
    by_cases hc : getComboFromEvent e = ""
    · rw [if_pos hc] at hb
      cases hb
    · rw [if_neg hc] at hb
      have hf := List.mem_filter.mp (List.take_subset 1 _ hb)
      have hce : b.combo = getComboFromEvent e := by simpa using hf.2
      refine ⟨⟨hf.1, hce⟩, ?_, ?_⟩
      · rw [hce]
        exact noUpper_getCombo e
      · intro hkey
        rw [hce]
        exact noWsAngle_getCombo e (fun hw hm => absurd ht hw)
  case mousedown =>
    intro hb
    replace hb : b ∈ (if e.button = 0 then ([] : List Binding)
        else if getComboFromEvent e = "" then ([] : List Binding)
        else (bs.filter
          (fun b => decide (b.combo = getComboFromEvent e))).take 1) := hb
    by_cases hb0 : e.button = 0
    · rw [if_pos hb0] at hb
      cases hb
    · rw [if_neg hb0] at hb
      by_cases hc : getComboFromEvent e = ""
      · rw [if_pos hc] at hb
        cases hb
      · rw [if_neg hc] at hb
        have hf := List.mem_filter.mp (List.take_subset 1 _ hb)
        have hce : b.combo = getComboFromEvent e := by simpa using hf.2
        refine ⟨⟨hf.1, hce⟩, ?_, ?_⟩
        · rw [hce]
          exact noUpper_getCombo e
        · intro hkey
          rw [hce]
          exact noWsAngle_getCombo e (fun hw hm => absurd ht hm)

def c4exGoodCallback : CB := fun _ => RetVal.rUndefined

def c4exGoodBinding : Binding := ⟨8, ["shift", "."], "shift+.", c4exGoodCallback⟩

def c4exGoodEvent : Event :=
  ⟨EventType.keydown, true, false, false, false, ".", 0, 0⟩

/-- Claim C4, witness: the binding stored for "shift+." is invoked by
the shift + "." keydown, lies in the registry, matches the canonical
combo verbatim, and its combo contains no uppercase letter, no
whitespace and no angle character. -/
theorem claim4_witness :
    (c4exGoodBinding ∈ [c4exGoodBinding] ∧
      c4exGoodBinding.combo = getComboFromEvent c4exGoodEvent) ∧
    noUpper c4exGoodBinding.combo ∧ noWsAngle c4exGoodBinding.combo :=
  have h := (claim4_matching_verbatim [c4exGoodBinding]
    ⟨false, false, false, false⟩ c4exGoodEvent).2 c4exGoodBinding
    (List.mem_singleton.mpr rfl)
  ⟨h.1, h.2.1, h.2.2 (fun _ => by decide)⟩

/-- Claim C5: on keydown dispatch, preventDefault and stopPropagation
are performed exactly when some matched callback returns the boolean
false (any other return value never triggers them); wheel and
mouse-button dispatch never performs suppression from a return value
(its trace holds callback invocations only), and the capture-phase
mousedown listener decides default-prevention before dispatch: its
trace is either empty or preventDefault and stopPropagation followed
only by invocations. -/
theorem claim5_false_return_suppression (bs : List Binding)
    (st : ModifierState) (e : Event) (ht : e.type = EventType.keydown) :
    ((Action.preventDefault ∈ (handleKeyEvent bs st e).2 ↔
        ∃ b ∈ bs, b.combo = getComboFromEvent e ∧
          getComboFromEvent e ≠ "" ∧ b.callback e = RetVal.rFalse) ∧
      (Action.stopPropagation ∈ (handleKeyEvent bs st e).2 ↔
        ∃ b ∈ bs, b.combo = getComboFromEvent e ∧
          getComboFromEvent e ≠ "" ∧ b.callback e = RetVal.rFalse)) ∧
    (∀ (bs2 : List Binding) (e2 : Event),
      ∀ a ∈ handleMouseEvent bs2 e2, ∃ b r, a = Action.invoke b r) ∧
    (∀ (bs2 : List Binding) (e2 : Event),
      mousedownListener bs2 e2 = [] ∨
        ((mousedownListener bs2 e2).take 2 =
          [Action.preventDefault, Action.stopPropagation] ∧
         ∀ a ∈ (mousedownListener bs2 e2).drop 2,
           ∃ b r, a = Action.invoke b r)) := by
  refine ⟨?_, fun bs2 e2 => handleMouse_only_invokes bs2 e2, ?_⟩
  · rw [handleKeyEvent_snd, if_pos ht]
    by_cases hc : getComboFromEvent e = ""
    · rw [if_pos hc]
      constructor <;>
        (constructor
         · intro hmem
           cases hmem
         · rintro ⟨b, hm, hcb, hne, hr⟩
           exact absurd hc hne)
    · rw [if_neg hc]
      constructor
      · rw [keyLoop_pd_mem]
        constructor
        · rintro ⟨b, hm, hcb, hr⟩
          exact ⟨b, hm, hcb, hc, hr⟩
        · rintro ⟨b, hm, hcb, _, hr⟩
          exact ⟨b, hm, hcb, hr⟩
      · rw [keyLoop_sp_mem]
        constructor
        · rintro ⟨b, hm, hcb, hr⟩
          exact ⟨b, hm, hcb, hc, hr⟩
        · rintro ⟨b, hm, hcb, _, hr⟩
          exact ⟨b, hm, hcb, hr⟩
  · intro bs2 e2
    unfold mousedownListener
    by_cases hb0 : e2.button = 0
    · rw [if_neg (not_not_intro hb0)]
      exact Or.inl rfl
    · rw [if_pos hb0]
      by_cases ha : bs2.any
          (fun b => decide (b.combo = getComboFromEvent e2)) = true
      · rw [if_pos ha]
        refine Or.inr ⟨rfl, ?_⟩
        intro a hmem
        exact handleMouse_only_invokes bs2 e2 a hmem
      · rw [if_neg ha]
        exact Or.inl rfl

def c5exCallback : CB := fun _ => RetVal.rFalse

def c5exBinding : Binding := ⟨12, ["x"], "x", c5exCallback⟩

def c5exEvent : Event :=
  ⟨EventType.keydown, false, false, false, false, "x", 0, 0⟩

/-- Claim C5, witness: a matched keydown callback returning false
makes the dispatcher perform preventDefault and stopPropagation. -/
theorem claim5_witness :
    Action.preventDefault ∈
      (handleKeyEvent [c5exBinding] ⟨false, false, false, false⟩
        c5exEvent).2 ∧
    Action.stopPropagation ∈
      (handleKeyEvent [c5exBinding] ⟨false, false, false, false⟩
        c5exEvent).2 :=
  have h := claim5_false_return_suppression [c5exBinding]
    ⟨false, false, false, false⟩ c5exEvent rfl
  ⟨h.1.1.mpr ⟨c5exBinding, List.mem_singleton.mpr rfl, rfl,
      by decide, rfl⟩,
   h.1.2.mpr ⟨c5exBinding, List.mem_singleton.mpr rfl, rfl,
      by decide, rfl⟩⟩

end KeyHandler
